import Mathlib

/-!
Shallow embedding of `src/workflow.py` (the `classify` workflow of
woltka-multiprocessing) and proofs about it.

Python dictionaries are modelled as association lists (`PyDict`) with
Python's semantics: assignment to an existing key replaces the value in
place, assignment to a fresh key appends, and `dict.update` performs
key-by-key assignment.  Python tuples of strings are modelled as
`List String`.  Runtime errors (`TypeError`, `KeyError`,
`UnboundLocalError`) are modelled with `Except`.
-/

namespace Woltka

/-- Query identifiers, subject identifiers, ranks, samples and
classification units are all strings in the source. -/
abbrev Qry := String

abbrev Sub := String

abbrev Rank := String

abbrev TUnit := String

/-- Sample key of a read map: a sample id, or Python `None`
(workflow.py:170 uses `None` as the key when `files` is empty). -/
abbrev SKey := Option String

/-- Python runtime errors that the embedded code can raise. -/
inductive PyErr where
  | typeError
  | keyError
  | unboundLocalError
deriving DecidableEq

/-- A Python dict, as an association list in insertion order. -/
abbrev PyDict (α β : Type) := List (α × β)

/-- Python `d[k]` as an `Option` (`none` models `KeyError`). -/
def alGet {α β : Type} [DecidableEq α] : PyDict α β → α → Option β
  | [], _ => none
  | (k', v) :: t, k => if k' = k then some v else alGet t k

/-- Python `d[k] = v`: replace in place if the key exists, else append. -/
def alSet {α β : Type} [DecidableEq α] : PyDict α β → α → β → PyDict α β
  | [], k, v => [(k, v)]
  | (k', v') :: t, k, v =>
    if k' = k then (k', v) :: t else (k', v') :: alSet t k v

/-- Python `d.update(other)`: assign every key of `other` into `d`. -/
def alUpdate {α β : Type} [DecidableEq α] (d other : PyDict α β) : PyDict α β :=
  other.foldl (fun acc kv => alSet acc kv.1 kv.2) d

/-- The keys of a dict, in order. -/
def alKeys {α β : Type} (d : PyDict α β) : List α :=
  d.map Prod.fst

/-- Lexicographic comparison of code-point sequences (Python's string
comparison compares strings as sequences of code points). -/
def leN : List Nat → List Nat → Bool
  | [], _ => true
  | _ :: _, [] => false
  | a :: as, b :: bs => if a < b then true else if b < a then false else leN as bs

/-- Python's `<=` on strings: lexicographic on code points. -/
def strLe (a b : String) : Bool :=
  leN (a.data.map Char.toNat) (b.data.map Char.toNat)

/-- The string order as a relation. -/
def sle (a b : String) : Prop := strLe a b = true

instance : DecidableRel sle := fun a b => inferInstanceAs (Decidable (strLe a b = true))

theorem leN_total (x y : List Nat) : leN x y = true ∨ leN y x = true := by
  induction x generalizing y with
  | nil => left; rfl
  | cons a as ih =>
    cases y with
    | nil => right; rfl
    | cons b bs =>
      rcases Nat.lt_trichotomy a b with h | h | h
      · left; simp [leN, h]
      · subst h
        rcases ih bs with h' | h'
        · left; simp [leN, Nat.lt_irrefl, h']
        · right; simp [leN, Nat.lt_irrefl, h']
      · right; simp [leN, h]

theorem leN_trans : ∀ x y z, leN x y = true → leN y z = true → leN x z = true := by
  intro x
  induction x with
  | nil => intro y z _ _; rfl
  | cons a as ih =>
    intro y z hxy hyz
    cases y with
    | nil => simp [leN] at hxy
    | cons b bs =>
      cases z with
      | nil => simp [leN] at hyz
      | cons c cs =>
        simp only [leN] at hxy hyz ⊢
        rcases Nat.lt_trichotomy a b with hab | hab | hab
        · rcases Nat.lt_trichotomy b c with hbc | hbc | hbc
          · simp [Nat.lt_trans hab hbc]
          · subst hbc; simp [hab]
          · simp [Nat.lt_asymm hbc, hbc] at hyz
        · subst hab
          rcases Nat.lt_trichotomy a c with hac | hac | hac
          · simp [hac]
          · subst hac
            simp only [Nat.lt_irrefl, if_false] at hxy hyz ⊢
            exact ih bs cs hxy hyz
          · simp [Nat.lt_asymm hac, hac] at hyz
        · simp [Nat.lt_asymm hab, hab] at hxy

theorem leN_antisymm : ∀ x y, leN x y = true → leN y x = true → x = y := by
  intro x
  induction x with
  | nil =>
    intro y _ hyx
    cases y with
    | nil => rfl
    | cons b bs => simp [leN] at hyx
  | cons a as ih =>
    intro y hxy hyx
    cases y with
    | nil => simp [leN] at hxy
    | cons b bs =>
      simp only [leN] at hxy hyx
      rcases Nat.lt_trichotomy a b with hab | hab | hab
      · simp [Nat.lt_asymm hab, hab] at hyx
      · subst hab
        simp only [Nat.lt_irrefl, if_false] at hxy hyx
        exact congrArg (a :: ·) (ih bs hxy hyx)
      · simp [Nat.lt_asymm hab, hab] at hxy

instance : IsTotal String sle := ⟨fun _ _ => leN_total _ _⟩

instance : IsTrans String sle := ⟨fun _ _ _ => leN_trans _ _ _⟩

instance : IsAntisymm String sle :=
  ⟨fun a b h1 h2 => by
    have hmap := leN_antisymm _ _ h1 h2
    have hchar : Function.Injective Char.toNat := fun c d h => by
      have := congrArg Char.ofNat h
      rwa [Char.ofNat_toNat, Char.ofNat_toNat] at this
    have hdata : a.data = b.data := List.map_injective_iff.mpr hchar hmap
    exact congrArg String.mk hdata⟩

/-- Python `sorted` on a list of strings (a stable comparison sort; any
correct sort is extensionally equal on the linear string order). -/
def pysorted (l : List String) : List String :=
  l.insertionSort sle

/-- Modelled from the spec: `strip_suffix` (called at workflow.py:165) is
not under `src/`; per the spec, identifiers are "trimmed at the last
occurrence of the delimiter if requested".  This trims one identifier:
the part of `s` before the last (rightmost) occurrence of `sep`
(`s` unchanged when `sep` does not occur). -/
def strip_suffix1 (sep : String) (s : String) : String :=
  let sp := sep.data
  let l := s.data
  let occs := (List.range (l.length + 1)).filter (fun i => sp.isPrefixOf (l.drop i))
  match occs.getLast? with
  | some i => String.mk (l.take i)
  | none => s

/-- The optional trimming step of workflow.py:165-166:
`strip_suffix(subque, trimsub) if trimsub else subque`, restricted to one
query's subject list.  An absent or empty `trimsub` is falsy in Python,
so no trimming happens. -/
def stripped (trimsub : Option String) (subs : List Sub) : List Sub :=
  match trimsub with
  | some sep => if sep = "" then subs else subs.map (strip_suffix1 sep)
  | none => subs

/-- Embeds workflow.py:165-166: each query's subject list is optionally
trimmed, then sorted, then frozen into a tuple
(`map(tuple, map(sorted, strip_suffix(subque, trimsub) if trimsub else subque))`). -/
def canonicalize (trimsub : Option String) (subs : List Sub) : List Sub :=
  pysorted (stripped trimsub subs)

/-- Embeds workflow.py:196-200: `num_processes = cpu_count()`; a pool of
12 processes when `num_processes >= 12`, else of `num_processes`. -/
def num_pool_processes (cpu_count : Nat) : Nat :=
  if cpu_count ≥ 12 then 12 else cpu_count

/-- The `files` argument of `classify` (workflow.py:45): either a flat
list of file paths or a dict from file path to sample id. -/
inductive Files where
  | flist : List String → Files
  | fdict : PyDict String String → Files

/-- Embeds `sorted(files)` (workflow.py:201): sorting a list sorts the
paths; sorting a dict sorts its keys. -/
def fileList : Files → List String
  | .flist l => pysorted l
  | .fdict d => pysorted (alKeys d).eraseDups

/-- Embeds the sample key of workflow.py:169-170 on the non-demultiplexed
branch: `files[fp] if files else None`.  An empty `files` is falsy, so
the key is `None`; indexing a non-empty list with a string path raises
`TypeError`; indexing a non-empty dict looks the path up (`KeyError` when
absent). -/
def sample_key (files : Files) (fp : String) : Except PyErr SKey :=
  match files with
  | .flist [] => .ok none
  | .flist (_ :: _) => .error .typeError
  | .fdict d =>
    if d.isEmpty then .ok none
    else
      match alGet d fp with
      | some s => .ok (some s)
      | none => .error .keyError

/-- Appends one (query, subject-set) pair to a sample's sub-batch. -/
def addPair (m : PyDict SKey (List Qry × List (List Sub))) (k : SKey)
    (q : Qry) (s : List Sub) : PyDict SKey (List Qry × List (List Sub)) :=
  let old := (alGet m k).getD ([], [])
  alSet m k (old.1 ++ [q], old.2 ++ [s])

/-- Splits a character list at the first occurrence of `c`. -/
def splitFirst (c : Char) : List Char → Option (List Char × List Char)
  | [] => none
  | a :: t =>
    if a = c then some ([], t)
    else
      match splitFirst c t with
      | some p => some (a :: p.1, p.2)
      | none => none

/-- Modelled from the spec: `demultiplex` (workflow.py:169) is not under
`src/`.  Per the spec, the sample token is a prefix of the query id
separated by a fixed delimiter (conventionally an underscore); a query
whose sample is not in the allow-list (when one is supplied) is dropped,
and every retained query goes to exactly one sample's sub-batch. -/
def demultiplex (qryque : List Qry) (subque : List (List Sub))
    (samples : Option (List String)) : PyDict SKey (List Qry × List (List Sub)) :=
  (qryque.zip subque).foldl (fun acc qs =>
    let parts :=
      match splitFirst '_' qs.1.data with
      | some p => (String.mk p.1, String.mk p.2)
      | none => (qs.1, qs.1)
    match samples with
    | some allow =>
      if parts.1 ∈ allow then addPair acc (some parts.1) parts.2 qs.2 else acc
    | none => addPair acc (some parts.1) parts.2 qs.2) []

/-- A per-rank, per-sample profile:
rank → sample → classification unit → accumulated count
(the nested `data` dict of workflow.py:139). -/
abbrev Profile := PyDict Rank (PyDict SKey (PyDict TUnit Nat))

/-- Embeds workflow.py:139: `data = {x: {} for x in ranks}` (a dict
comprehension; a duplicated rank overwrites its own earlier entry). -/
def data_init (ranks : List Rank) : Profile :=
  ranks.foldl (fun acc r => alSet acc r []) []

/-- Modelled from the spec: the per-chunk count production of
`assign_readmap` (workflow.py:183) and `counter`, which are not under
`src/`.  Resolution is the injected per-rank capability `resolve`
(the spec excludes the assigner bodies); each query whose canonical
subject set resolves to a unit adds one to that unit's count. -/
def counter_counts (resolve : List Sub → Option TUnit)
    (subque : List (List Sub)) : PyDict TUnit Nat :=
  subque.foldl (fun acc ss =>
    match resolve ss with
    | some u => alSet acc u ((alGet acc u).getD 0 + 1)
    | none => acc) []

/-- Per-key summation of counts into a cell (the spec's "append/increment
only" accumulation within one worker). -/
def sum_counts (cell counts : PyDict TUnit Nat) : PyDict TUnit Nat :=
  counts.foldl (fun acc uc => alSet acc uc.1 ((alGet acc uc.1).getD 0 + uc.2)) cell

/-- Modelled from the spec: `assign_readmap` (workflow.py:183) is not
under `src/`.  Per the spec it resolves the chunk's queries at `rank` and
accumulates the counts into the worker's `data[rank][sample]` cell by
per-key summation. -/
def assign_readmap (resolve : Rank → List Sub → Option TUnit)
    (data : Profile) (rank : Rank) (sample : SKey)
    (subque : List (List Sub)) : Profile :=
  let counts := counter_counts (resolve rank) subque
  let inner := (alGet data rank).getD []
  let cell := (alGet inner sample).getD []
  alSet data rank (alSet inner sample (sum_counts cell counts))

/-- Embeds workflow.py:176-179 together with Python's scoping rules.
`csample` is initialised in `classify` (line 152) but assigned at line
179 inside `classify_file_mp` without a `nonlocal` declaration, making
it a local variable of `classify_file_mp`, unbound until line 179 first
runs; the read in `sample != csample` at line 176 therefore raises
`UnboundLocalError`.  The local is modelled as an `Option SKey`
(`none` = not yet bound).  When `stratmap` is falsy (absent or empty)
the conjunction short-circuits and nothing is read.  On a sample change
`stratmap[sample]` is looked up (`KeyError` when absent) before
`csample` is assigned; the loaded strata content feeds only the external
assigners and is not tracked here. -/
def strat_check (stratmap : Option (PyDict String String))
    (csample : Option SKey) (sample : SKey) : Except PyErr (Option SKey) :=
  match stratmap with
  | none => .ok csample
  | some m =>
    if m.isEmpty then .ok csample
    else
      match csample with
      | none => .error .unboundLocalError
      | some c =>
        if sample ≠ c then
          match sample with
          | some s =>
            match alGet m s with
            | some _ => .ok (some sample)
            | none => .error .keyError
          | none => .error .keyError
        else .ok csample

/-- Left fold that stops at the first error (the control flow of a Python
loop in which an iteration may raise). -/
def foldE {σ α : Type} (f : σ → α → Except PyErr σ) (s : σ) :
    List α → Except PyErr σ
  | [] => .ok s
  | a :: t =>
    match f s a with
    | .ok s' => foldE f s' t
    | .error e => .error e

/-- The run configuration of `classify` (workflow.py:44-66), restricted
to the parameters the embedded control flow consumes.  `mapper` is the
external iterator-producing capability (file path to its list of
(query batch, subject batch) chunks, with `fmt` and `chunk` folded in);
`assign` is the injected per-rank resolution capability (the spec
excludes the assigner bodies). -/
structure RunCfg where
  mapper : String → List (List Qry × List (List Sub))
  files : Files
  samples : Option (List String)
  demux : Bool
  trimsub : Option String
  ranks : List Rank
  stratmap : Option (PyDict String String)
  assign : Rank → List Sub → Option TUnit

/-- One iteration of `for sample, rmap in rmaps.items()`
(workflow.py:173-183): the strata check, then
`for rank in ranks: assign_readmap(...)`. -/
def process_sample (cfg : RunCfg) (st : Profile × Option SKey)
    (entry : SKey × (List Qry × List (List Sub))) :
    Except PyErr (Profile × Option SKey) :=
  match strat_check cfg.stratmap st.2 entry.1 with
  | .ok cs =>
    .ok (cfg.ranks.foldl
      (fun d rank => assign_readmap cfg.assign d rank entry.1 entry.2.2) st.1, cs)
  | .error e => .error e

/-- One iteration of the chunk loop (workflow.py:162-183): canonicalize
the chunk's subject sets (lines 165-166), build the per-sample read maps
(lines 169-170), then process each sample entry. -/
def process_chunk (cfg : RunCfg) (fp : String) (st : Profile × Option SKey)
    (chunk : List Qry × List (List Sub)) : Except PyErr (Profile × Option SKey) :=
  match (if cfg.demux then
      .ok (demultiplex chunk.1 (chunk.2.map (canonicalize cfg.trimsub)) cfg.samples)
    else
      match sample_key cfg.files fp with
      | .ok k => .ok [(k, (chunk.1, chunk.2.map (canonicalize cfg.trimsub)))]
      | .error e => .error e : Except PyErr (PyDict SKey (List Qry × List (List Sub)))) with
  | .ok rmaps => foldE (process_sample cfg) st rmaps
  | .error e => .error e

/-- Embeds `classify_file_mp` (workflow.py:155-193): the worker starts
from the pickled parent state (`data` = the freshly initialised per-rank
dict, `csample` a yet-unbound local), folds the file's chunks in stream
order, and returns its `data`. -/
def classify_file_mp (cfg : RunCfg) (fp : String) : Except PyErr Profile :=
  match foldE (process_chunk cfg fp) (data_init cfg.ranks, none) (cfg.mapper fp) with
  | .ok st => .ok st.1
  | .error e => .error e

/-- Embeds one iteration of the merge loop (workflow.py:206-208):
`for rank, file in results.items(): data[rank].update(file)`.
`dict.update` assigns the worker's per-sample cells key by key,
replacing any existing cell for the same sample; a rank absent from
`data` would raise `KeyError`. -/
def merge_into (data : Profile) (results : Profile) : Except PyErr Profile :=
  foldE (fun acc rf =>
    match alGet acc rf.1 with
    | some cur => .ok (alSet acc rf.1 (alUpdate cur rf.2))
    | none => .error .keyError) data results

/-- Embeds the whole merge loop over `classify_results`
(workflow.py:206-208). -/
def aggregate (data : Profile) (classify_results : List Profile) :
    Except PyErr Profile :=
  foldE merge_into data classify_results

/-- Gathers the outcomes of the dispatched workers: the run fails as soon
as any worker failed (`pool.map` re-raises a worker's exception), else
yields every worker's profile. -/
def seqE : List (Except PyErr Profile) → Except PyErr (List Profile)
  | [] => .ok []
  | x :: t =>
    match x with
    | .ok v =>
      match seqE t with
      | .ok vs => .ok (v :: vs)
      | .error e => .error e
    | .error e => .error e

/-- Embeds `classify` (workflow.py:44-211): map `classify_file_mp` over
the sorted file list (`pool.map` applies the worker function to each
file and returns the results in task order), then merge every worker's
profile into the freshly initialised `data`. -/
def classify (cfg : RunCfg) : Except PyErr Profile :=
  match seqE ((fileList cfg.files).map (classify_file_mp cfg)) with
  | .ok classify_results => aggregate (data_init cfg.ranks) classify_results
  | .error e => .error e

/-- Reorders a completion-ordered association of task index to worker
outcome back into task order, as `pool.map` does. -/
def reassemble (n : Nat) (arrivals : PyDict Nat (Except PyErr Profile)) :
    List (Except PyErr Profile) :=
  (List.range n).map (fun i => (alGet arrivals i).getD (.error .keyError))

/-- `classify` with an explicit schedule: `order` lists the task indices
in the order the workers complete them (any partition of the tasks
across 1, 2 or 12 workers and any interleaving of their completions
yields some such order, a permutation of the task indices); the pool
reassembles the outcomes into task order before the merge. -/
def classify_sched (cfg : RunCfg) (order : List Nat) : Except PyErr Profile :=
  match seqE (reassemble (fileList cfg.files).length
      (order.map (fun i => (i, classify_file_mp cfg ((fileList cfg.files).getD i ""))))) with
  | .ok classify_results => aggregate (data_init cfg.ranks) classify_results
  | .error e => .error e

/-- Modelled from the spec: the bounded memoizing store of the Resolver
(`lru_cache` inside `assign_readmap`, not under `src/`).  Entries are
kept most-recently-used first. -/
structure LRU where
  entries : PyDict (List Sub) TUnit
  cap : Nat
deriving DecidableEq

/-- Cache lookup. -/
def lru_get (c : LRU) (k : List Sub) : Option TUnit :=
  alGet c.entries k

/-- Record a use of key `k` with value `v`: move it to the front,
evicting the least-recently-used entry if over capacity. -/
def lru_put (c : LRU) (k : List Sub) (v : TUnit) : LRU :=
  let e := (k, v) :: c.entries.filter (fun p => p.1 ≠ k)
  LRU.mk (if c.cap < e.length then e.dropLast else e) c.cap

/-- Modelled from the spec: the cached resolution step of
`assign_readmap` (workflow.py:141-149, 182-183; the body is not under
`src/`).  The `assigners` store is keyed by rank; resolving at a rank
consults that rank's cache with the canonical subject set as key
(creating the rank's cache on first use), computes and inserts on a
miss, and returns the unit together with the updated store. -/
def resolve_cached (compute : Rank → List Sub → TUnit) (cache : Nat)
    (assigners : PyDict Rank LRU) (rank : Rank) (ss : List Sub) :
    TUnit × PyDict Rank LRU :=
  let c := (alGet assigners rank).getD (LRU.mk [] cache)
  match lru_get c ss with
  | some v => (v, alSet assigners rank (lru_put c ss v))
  | none =>
    let v := compute rank ss
    (v, alSet assigners rank (lru_put c ss v))

/-- Worker input used to exhibit the merge behaviour at a concrete run:
two input files mapped to the same sample, every query resolving to the
same unit; `f1` holds one query, `f2` two. -/
def cfgC1 : RunCfg :=
  RunCfg.mk
    (fun fp => if fp = "f1" then [(["q1"], [["a"]])] else [(["q1", "q2"], [["a"], ["a"]])])
    (Files.fdict [("f1", "S1"), ("f2", "S1")])
    none false none ["free"] none (fun _ _ => some "U")

/-- A run with a stratification map supplied: one file, one chunk, one
sample, the sample present in `stratmap`. -/
def cfgC3 : RunCfg :=
  RunCfg.mk
    (fun _ => [(["q1"], [["a"]])])
    (Files.fdict [("f1", "S1")])
    none false none ["free"] (some [("S1", "s1.map")]) (fun _ _ => some "U")

/-- A run with demultiplexing disabled and `files` a non-empty flat
list. -/
def cfgC9 : RunCfg :=
  RunCfg.mk
    (fun _ => [(["q1"], [["a"]])])
    (Files.flist ["f1"])
    none false none ["free"] none (fun _ _ => some "U")

/-- A two-file run used to instantiate scheduling independence. -/
def cfgC2 : RunCfg :=
  RunCfg.mk
    (fun fp => if fp = "f1" then [(["q1"], [["a"]])] else [(["q2"], [["b"]])])
    (Files.fdict [("f1", "S1"), ("f2", "S2")])
    none false none ["free"] none (fun _ ss => ss.headD "x")

/-- A run with two requested ranks and no input files. -/
def cfgC10 : RunCfg :=
  RunCfg.mk (fun _ => []) (Files.flist []) none false none ["genus", "phylum"]
    none (fun _ _ => none)

theorem alGet_alSet_self {α β : Type} [DecidableEq α] (m : PyDict α β) (k : α) (v : β) :
    alGet (alSet m k v) k = some v := by
  induction m with
  | nil => simp [alGet, alSet]
  | cons p t ih =>
    by_cases h : p.1 = k
    · simp [alSet, alGet, h]
    · simp [alSet, alGet, h, ih]

theorem alKeys_cons {α β : Type} (p : α × β) (t : PyDict α β) :
    alKeys (p :: t) = p.1 :: alKeys t := rfl

theorem alGet_alSet_ne {α β : Type} [DecidableEq α] {k' k : α} (m : PyDict α β) (v : β)
    (h : k' ≠ k) : alGet (alSet m k v) k' = alGet m k' := by
  induction m with
  | nil => simp [alGet, alSet, Ne.symm h]
  | cons p t ih =>
    obtain ⟨pk, pv⟩ := p
    by_cases hp : pk = k
    · subst hp
      simp [alSet, alGet, Ne.symm h]
    · by_cases hp' : pk = k'
      · subst hp'
        simp [alSet, alGet, hp]
      · simp [alSet, alGet, hp, hp', ih]

theorem mem_alKeys_alSet {α β : Type} [DecidableEq α] (m : PyDict α β) (k x : α) (v : β) :
    x ∈ alKeys (alSet m k v) ↔ x ∈ alKeys m ∨ x = k := by
  induction m with
  | nil => simp [alSet, alKeys]
  | cons p t ih =>
    obtain ⟨pk, pv⟩ := p
    by_cases hp : pk = k
    · subst hp
      have hred : alSet ((pk, pv) :: t) pk v = (pk, v) :: t := by simp [alSet]
      rw [hred, alKeys_cons, alKeys_cons]
      simp only [List.mem_cons]
      tauto
    · have hred : alSet ((pk, pv) :: t) k v = (pk, pv) :: alSet t k v := by
        simp [alSet, hp]
      rw [hred, alKeys_cons, alKeys_cons]
      simp only [List.mem_cons, ih]
      tauto

theorem alKeys_alSet_of_mem {α β : Type} [DecidableEq α] {m : PyDict α β} {k : α} (v : β)
    (h : k ∈ alKeys m) : alKeys (alSet m k v) = alKeys m := by
  induction m with
  | nil => simp [alKeys] at h
  | cons p t ih =>
    obtain ⟨pk, pv⟩ := p
    by_cases hp : pk = k
    · subst hp
      simp [alSet, alKeys_cons]
    · rw [alKeys_cons] at h
      rcases List.mem_cons.mp h with h1 | h1
      · exact absurd h1.symm hp
      · simp [alSet, hp, alKeys_cons, ih h1]

theorem alGet_eq_none_of_not_mem {α β : Type} [DecidableEq α] {m : PyDict α β} {k : α}
    (h : k ∉ alKeys m) : alGet m k = none := by
  induction m with
  | nil => rfl
  | cons p t ih =>
    obtain ⟨pk, pv⟩ := p
    rw [alKeys_cons] at h
    have h1 : ¬k = pk ∧ k ∉ alKeys t := by
      constructor
      · exact fun hh => h (List.mem_cons.mpr (Or.inl hh))
      · exact fun hh => h (List.mem_cons.mpr (Or.inr hh))
    have hne : pk ≠ k := fun hh => h1.1 hh.symm
    simp [alGet, hne, ih h1.2]

theorem mem_alKeys_of_alGet {α β : Type} [DecidableEq α] {m : PyDict α β} {k : α} {v : β}
    (h : alGet m k = some v) : k ∈ alKeys m := by
  induction m with
  | nil => simp [alGet] at h
  | cons p t ih =>
    obtain ⟨pk, pv⟩ := p
    by_cases hp : pk = k
    · subst hp
      simp [alKeys_cons]
    · simp only [alGet, if_neg hp] at h
      rw [alKeys_cons]
      exact List.mem_cons.mpr (Or.inr (ih h))

theorem alSet_of_not_mem {α β : Type} [DecidableEq α] {m : PyDict α β} {k : α} (v : β)
    (h : k ∉ alKeys m) : alSet m k v = m ++ [(k, v)] := by
  induction m with
  | nil => rfl
  | cons p t ih =>
    obtain ⟨pk, pv⟩ := p
    rw [alKeys_cons] at h
    have h1 : ¬k = pk ∧ k ∉ alKeys t := by
      constructor
      · exact fun hh => h (List.mem_cons.mpr (Or.inl hh))
      · exact fun hh => h (List.mem_cons.mpr (Or.inr hh))
    have hne : pk ≠ k := fun hh => h1.1 hh.symm
    simp [alSet, hne, ih h1.2]

/-- C7: for every CPU count, the worker pool is sized to
`min(available parallelism, 12)`: exactly 12 workers when the CPU count
is at least 12, exactly the CPU count otherwise (workflow.py:196-200). -/
theorem c7_pool_sized_min_cpu_12 (cpu_count : Nat) :
    num_pool_processes cpu_count = min cpu_count 12 ∧
    (12 ≤ cpu_count → num_pool_processes cpu_count = 12) ∧
    (cpu_count < 12 → num_pool_processes cpu_count = cpu_count) := by
  refine ⟨?_, ?_, ?_⟩ <;> unfold num_pool_processes <;> split <;> omega

theorem c7_pool_sized_min_cpu_12_witness :
    num_pool_processes 16 = 12 ∧ num_pool_processes 4 = 4 :=
  ⟨(c7_pool_sized_min_cpu_12 16).2.1 (by decide),
   (c7_pool_sized_min_cpu_12 4).2.2 (by decide)⟩

/-- C5 counterexample: canonicalization (workflow.py:165-166) does not
deduplicate; the raw subject list `["b", "a", "b"]` (no trim delimiter
requested) canonicalizes to `["a", "b", "b"]`, which contains a
duplicate identifier, contradicting "the canonical SubjectSet contains
no duplicate identifiers". -/
theorem c5_counterexample_no_dedup :
    canonicalize none ["b", "a", "b"] = ["a", "b", "b"] ∧
    ¬ (canonicalize none ["b", "a", "b"]).Nodup :=
  ⟨rfl, by decide⟩

/-- C5 (amended): canonicalization trims each identifier at the last
occurrence of the delimiter (when a trim delimiter is requested) and
then sorts the identifiers into a fixed-order immutable sequence; it
does not deduplicate — the canonical SubjectSet is a permutation of the
trimmed raw list, retaining any duplicates. -/
theorem c5_canonicalize_trims_then_sorts (trimsub : Option String) (subs : List Sub) :
    List.Sorted sle (canonicalize trimsub subs) ∧
    (canonicalize trimsub subs).Perm (stripped trimsub subs) :=
  ⟨List.sorted_insertionSort sle _, List.perm_insertionSort sle _⟩

/-- C6: canonicalization (sort then freeze into a tuple) is idempotent —
sorting an already sorted sequence returns it unchanged — and
order-independent: any two permutations of the same multiset of subject
identifiers canonicalize to the identical SubjectSet. -/
theorem c6_canonicalization_idempotent_order_independent (l l' : List Sub) :
    pysorted (pysorted l) = pysorted l ∧
    (l.Perm l' → pysorted l = pysorted l') := by
  constructor
  · exact List.Sorted.insertionSort_eq (List.sorted_insertionSort sle l)
  · intro h
    exact List.eq_of_perm_of_sorted
      (((List.perm_insertionSort sle l).trans h).trans (List.perm_insertionSort sle l').symm)
      (List.sorted_insertionSort sle l) (List.sorted_insertionSort sle l')

theorem c6_canonicalization_witness :
    pysorted (pysorted ["b", "a"]) = pysorted ["b", "a"] ∧
    pysorted ["b", "a"] = pysorted ["a", "b"] :=
  ⟨(c6_canonicalization_idempotent_order_independent ["b", "a"] ["a", "b"]).1,
   (c6_canonicalization_idempotent_order_independent ["b", "a"] ["a", "b"]).2
     (List.Perm.swap "a" "b" [])⟩

/-- C1 evaluated at the failing input: both workers' profiles contain a
value for the key (free, S1, U) — 1 from `f1` and 2 from `f2` — but the
merge loop (workflow.py:206-208, `data[rank].update(file)`) replaces
`f1`'s cell with `f2`'s instead of summing: the run returns 2, not
1 + 2. -/
theorem c1_merge_overwrites_not_sums :
    classify_file_mp cfgC1 "f1" = .ok [("free", [(some "S1", [("U", 1)])])] ∧
    classify_file_mp cfgC1 "f2" = .ok [("free", [(some "S1", [("U", 2)])])] ∧
    classify cfgC1 = .ok [("free", [(some "S1", [("U", 2)])])] ∧
    (2 : Nat) ≠ 1 + 2 :=
  ⟨rfl, rfl, rfl, by decide⟩

/-- C3 evaluated at the failing input: with a stratification map
supplied, the very first chunk fails with `UnboundLocalError` — the
stratum map is never loaded — because `csample` is assigned at
workflow.py:179 inside `classify_file_mp` without a `nonlocal`
declaration, so the read `sample != csample` at line 176 reads an
unbound local; the whole run fails the same way. -/
theorem c3_stratmap_raises_unbound_local :
    classify_file_mp cfgC3 "f1" = .error .unboundLocalError ∧
    classify cfgC3 = .error .unboundLocalError :=
  ⟨rfl, rfl⟩

/-- C9: with demultiplexing disabled and `files` a non-empty flat list,
processing any chunk of any file fails with a `TypeError`, because the
per-chunk sample key indexes the files collection with the file path
(workflow.py:169-170, `files[fp] if files else None`); the
non-demultiplexed sample-key step is total when `files` is empty or is a
dictionary containing the file. -/
theorem c9_flat_list_chunk_type_error (cfg : RunCfg) (x : String) (xs : List String)
    (fp : String) (ch : List Qry × List (List Sub))
    (chs : List (List Qry × List (List Sub)))
    (hd : cfg.demux = false) (hf : cfg.files = .flist (x :: xs))
    (hm : cfg.mapper fp = ch :: chs) :
    classify_file_mp cfg fp = .error .typeError ∧
    (∀ fp', sample_key (.flist []) fp' = .ok none) ∧
    (∀ (d : PyDict String String) (fp' s : String), alGet d fp' = some s →
      sample_key (.fdict d) fp' = .ok (some s)) := by
  refine ⟨?_, fun _ => rfl, ?_⟩
  · simp [classify_file_mp, hm, foldE, process_chunk, hd, hf, sample_key]
  · intro d fp' s h
    cases d with
    | nil => simp [alGet] at h
    | cons p t => simp [sample_key, h]

theorem c9_flat_list_chunk_type_error_witness :
    classify_file_mp cfgC9 "f1" = .error .typeError :=
  (c9_flat_list_chunk_type_error cfgC9 "f1" [] "f1" (["q1"], [["a"]]) []
    rfl rfl rfl).1

/-- C4: the assignment cache is scoped per rank.  In the modelled cached
resolution, resolving a subject set at rank `A` leaves the cache entry
of every other rank `B` untouched (never populated), and both the served
unit and the updated rank-`A` cache depend only on the rank-`A` entry of
the store (never served by another rank's cache). -/
theorem c4_cache_scoped_per_rank (compute : Rank → List Sub → TUnit) (cache : Nat)
    (st st' : PyDict Rank LRU) (A B : Rank) (ss : List Sub)
    (hBA : B ≠ A) (hagree : alGet st A = alGet st' A) :
    alGet (resolve_cached compute cache st A ss).2 B = alGet st B ∧
    (resolve_cached compute cache st A ss).1 =
      (resolve_cached compute cache st' A ss).1 ∧
    alGet (resolve_cached compute cache st A ss).2 A =
      alGet (resolve_cached compute cache st' A ss).2 A := by
  unfold resolve_cached
  rw [← hagree]
  cases h : lru_get ((alGet st A).getD (LRU.mk [] cache)) ss <;>
    simp [h, alGet_alSet_self, alGet_alSet_ne _ _ hBA]

theorem c4_cache_scoped_per_rank_witness :
    alGet (resolve_cached (fun _ _ => "U") 4 [] "genus" ["a"]).2 "phylum" =
      alGet ([] : PyDict Rank LRU) "phylum" ∧
    (resolve_cached (fun _ _ => "U") 4 [] "genus" ["a"]).1 =
      (resolve_cached (fun _ _ => "U") 4 [("phylum", LRU.mk [(["a"], "V")] 4)]
        "genus" ["a"]).1 ∧
    alGet (resolve_cached (fun _ _ => "U") 4 [] "genus" ["a"]).2 "genus" =
      alGet (resolve_cached (fun _ _ => "U") 4 [("phylum", LRU.mk [(["a"], "V")] 4)]
        "genus" ["a"]).2 "genus" :=
  c4_cache_scoped_per_rank (fun _ _ => "U") 4 [] [("phylum", LRU.mk [(["a"], "V")] 4)]
    "genus" "phylum" ["a"] (by decide) rfl

theorem seqE_ok_all {l : List (Except PyErr Profile)} {rs : List Profile}
    (h : seqE l = .ok rs) : ∀ x ∈ l, ∃ p, x = .ok p := by
  induction l generalizing rs with
  | nil => intro x hx; simp at hx
  | cons a t ih =>
    intro x hx
    cases a with
    | error e => simp [seqE] at h
    | ok v =>
      cases ht : seqE t with
      | error e => rw [seqE, ht] at h; simp at h
      | ok vs =>
        rcases List.mem_cons.mp hx with hx | hx
        · exact ⟨v, by rw [hx]⟩
        · exact ih ht x hx

theorem seqE_error_of_mem {l : List (Except PyErr Profile)} {e : PyErr}
    (h : Except.error e ∈ l) : ∃ e', seqE l = .error e' := by
  induction l with
  | nil => simp at h
  | cons a t ih =>
    rcases List.mem_cons.mp h with hx | hx
    · exact ⟨e, by rw [← hx]; rfl⟩
    · cases a with
      | error e'' => exact ⟨e'', rfl⟩
      | ok v =>
        obtain ⟨e', ht⟩ := ih hx
        exact ⟨e', by rw [seqE, ht]⟩

/-- C8: there is no partial-success mode.  If `classify` returns a
profile, every dispatched file was processed to completion; and if any
one worker fails, the whole run fails — no partial per-worker profile is
surfaced or merged into a returned result (workflow.py:201-209:
`pool.map` re-raises a worker's exception before the merge loop runs). -/
theorem c8_no_partial_success (cfg : RunCfg) :
    (∀ d, classify cfg = .ok d →
      ∀ fp ∈ fileList cfg.files, ∃ p, classify_file_mp cfg fp = .ok p) ∧
    (∀ fp ∈ fileList cfg.files, ∀ e, classify_file_mp cfg fp = .error e →
      ∃ e', classify cfg = .error e') := by
  constructor
  · intro d h fp hfp
    unfold classify at h
    cases hs : seqE ((fileList cfg.files).map (classify_file_mp cfg)) with
    | error e => rw [hs] at h; simp at h
    | ok rs =>
      exact seqE_ok_all hs _ (List.mem_map_of_mem (classify_file_mp cfg) hfp)
  · intro fp hfp e he
    have hmem : Except.error e ∈ (fileList cfg.files).map (classify_file_mp cfg) := by
      rw [← he]
      exact List.mem_map_of_mem (classify_file_mp cfg) hfp
    obtain ⟨e', hs⟩ := seqE_error_of_mem hmem
    exact ⟨e', by unfold classify; rw [hs]⟩

theorem c8_no_partial_success_witness :
    ∃ e', classify cfgC3 = .error e' :=
  (c8_no_partial_success cfgC3).2 "f1" (by decide) .unboundLocalError rfl

theorem alGet_map_self {β : Type} (g : Nat → β) :
    ∀ (l : List Nat) (i : Nat), i ∈ l →
      alGet (l.map (fun j => (j, g j))) i = some (g i) := by
  intro l
  induction l with
  | nil => intro i hi; simp at hi
  | cons a t ih =>
    intro i hi
    by_cases ha : a = i
    · subst ha; simp [alGet]
    · rcases List.mem_cons.mp hi with hx | hx
      · exact absurd hx.symm ha
      · simp only [List.map_cons, alGet, if_neg ha]
        exact ih i hx

theorem reassemble_perm (g : Nat → Except PyErr Profile) (n : Nat) (order : List Nat)
    (h : order.Perm (List.range n)) :
    reassemble n (order.map (fun i => (i, g i))) = (List.range n).map g := by
  unfold reassemble
  apply List.map_congr_left
  intro i hi
  have hmem : i ∈ order := h.mem_iff.mpr hi
  rw [alGet_map_self g order i hmem]
  rfl

theorem map_getD_eq (l : List String) (f : String → Except PyErr Profile) :
    (List.range l.length).map (fun i => f (l.getD i "")) = l.map f := by
  induction l with
  | nil => simp
  | cons a t ih =>
    rw [List.length_cons, List.range_succ_eq_map, List.map_cons, List.map_map]
    have htail :
        (List.range t.length).map ((fun i => f ((a :: t).getD i "")) ∘ Nat.succ) =
          (List.range t.length).map (fun i => f (t.getD i "")) := by
      apply List.map_congr_left
      intro i _
      rfl
    rw [htail, ih]
    rfl

/-- C2: the aggregated profile is the same however the files are
partitioned across workers and in whatever order workers complete.  Any
partition of the sorted file list across 1, 2 or 12 workers together
with any interleaving of their completions delivers the per-file
outcomes in some permutation `order` of the task indices; the pool
reassembles them into task order, so the scheduled run equals the
sequential one. -/
theorem c2_schedule_independent (cfg : RunCfg) (order : List Nat)
    (h : order.Perm (List.range (fileList cfg.files).length)) :
    classify_sched cfg order = classify cfg := by
  unfold classify_sched classify
  rw [reassemble_perm (fun i => classify_file_mp cfg ((fileList cfg.files).getD i ""))
    _ _ h]
  rw [map_getD_eq (fileList cfg.files) (classify_file_mp cfg)]

theorem c2_schedule_independent_witness :
    classify_sched cfgC2 [1, 0] = classify cfgC2 :=
  c2_schedule_independent cfgC2 [1, 0] (by decide)

theorem alKeys_append {α β : Type} (m m' : PyDict α β) :
    alKeys (m ++ m') = alKeys m ++ alKeys m' :=
  List.map_append _ _ _

theorem foldE_inv {σ α : Type} {P : σ → Prop} {f : σ → α → Except PyErr σ}
    (hf : ∀ s a s', f s a = .ok s' → P s → P s') :
    ∀ (l : List α) (s s'), foldE f s l = .ok s' → P s → P s' := by
  intro l
  induction l with
  | nil =>
    intro s s' h hp
    simp only [foldE] at h
    cases h
    exact hp
  | cons a t ih =>
    intro s s' h hp
    cases hfa : f s a with
    | error e => rw [foldE, hfa] at h; simp at h
    | ok s1 =>
      rw [foldE, hfa] at h
      exact ih s1 s' h (hf s a s1 hfa hp)

theorem mem_alKeys_foldl_init (l : List Rank) :
    ∀ (m : Profile) (r : Rank),
      r ∈ alKeys (l.foldl (fun acc x => alSet acc x []) m) ↔ r ∈ alKeys m ∨ r ∈ l := by
  induction l with
  | nil => simp
  | cons a t ih =>
    intro m r
    rw [List.foldl_cons, ih, mem_alKeys_alSet]
    simp only [List.mem_cons]
    tauto

theorem mem_alKeys_data_init (ranks : List Rank) (r : Rank) :
    r ∈ alKeys (data_init ranks) ↔ r ∈ ranks := by
  unfold data_init
  rw [mem_alKeys_foldl_init]
  simp [alKeys]

theorem alKeys_foldl_assign (resolve : Rank → List Sub → Option TUnit) (sample : SKey)
    (subque : List (List Sub)) (ranks : List Rank) :
    ∀ (d : Profile), (∀ r ∈ ranks, r ∈ alKeys d) →
      alKeys (ranks.foldl
        (fun d rank => assign_readmap resolve d rank sample subque) d) = alKeys d := by
  induction ranks with
  | nil => intro d _; rfl
  | cons a t ih =>
    intro d hmem
    rw [List.foldl_cons]
    have hka : alKeys (assign_readmap resolve d a sample subque) = alKeys d :=
      alKeys_alSet_of_mem _ (hmem a (List.mem_cons.mpr (Or.inl rfl)))
    rw [ih _ (fun r hr => hka ▸ hmem r (List.mem_cons.mpr (Or.inr hr))), hka]

theorem process_sample_keys (cfg : RunCfg) (st st' : Profile × Option SKey)
    (entry : SKey × (List Qry × List (List Sub)))
    (h : process_sample cfg st entry = .ok st')
    (hK : ∀ r ∈ cfg.ranks, r ∈ alKeys st.1) : alKeys st'.1 = alKeys st.1 := by
  unfold process_sample at h
  cases hc : strat_check cfg.stratmap st.2 entry.1 with
  | error e => rw [hc] at h; simp at h
  | ok cs =>
    rw [hc] at h
    cases h
    exact alKeys_foldl_assign cfg.assign entry.1 entry.2.2 cfg.ranks st.1 hK

theorem process_chunk_keys (cfg : RunCfg) (fp : String)
    (st st' : Profile × Option SKey) (chunk : List Qry × List (List Sub))
    (h : process_chunk cfg fp st chunk = .ok st')
    (hK : ∀ r ∈ cfg.ranks, r ∈ alKeys st.1) : alKeys st'.1 = alKeys st.1 := by
  unfold process_chunk at h
  cases hr : (if cfg.demux then
      .ok (demultiplex chunk.1 (chunk.2.map (canonicalize cfg.trimsub)) cfg.samples)
    else
      match sample_key cfg.files fp with
      | .ok k => .ok [(k, (chunk.1, chunk.2.map (canonicalize cfg.trimsub)))]
      | .error e => .error e : Except PyErr (PyDict SKey (List Qry × List (List Sub)))) with
  | error e => rw [hr] at h; simp at h
  | ok rmaps =>
    rw [hr] at h
    exact foldE_inv (P := fun s => alKeys s.1 = alKeys st.1)
      (fun s a s' hs hp => by
        have hp' : alKeys s.1 = alKeys st.1 := hp
        show alKeys s'.1 = alKeys st.1
        rw [process_sample_keys cfg s s' a hs (fun r hr' => hp' ▸ hK r hr'), hp'])
      rmaps st st' h rfl

theorem classify_file_mp_keys (cfg : RunCfg) (fp : String) (p : Profile)
    (h : classify_file_mp cfg fp = .ok p) :
    alKeys p = alKeys (data_init cfg.ranks) := by
  unfold classify_file_mp at h
  cases hf : foldE (process_chunk cfg fp) (data_init cfg.ranks, none) (cfg.mapper fp) with
  | error e => rw [hf] at h; simp at h
  | ok st =>
    rw [hf] at h
    cases h
    exact foldE_inv (P := fun s => alKeys s.1 = alKeys (data_init cfg.ranks))
      (fun s a s' hs hp => by
        have hp' : alKeys s.1 = alKeys (data_init cfg.ranks) := hp
        show alKeys s'.1 = alKeys (data_init cfg.ranks)
        rw [process_chunk_keys cfg fp s s' a hs
          (fun r hr => hp' ▸ (mem_alKeys_data_init cfg.ranks r).mpr hr), hp'])
      (cfg.mapper fp) _ st hf rfl

theorem merge_into_keys (data : Profile) (res : Profile) (d' : Profile)
    (h : merge_into data res = .ok d') : alKeys d' = alKeys data := by
  unfold merge_into at h
  exact foldE_inv (P := fun acc => alKeys acc = alKeys data)
    (fun acc a acc' hs hp => by
      have hp' : alKeys acc = alKeys data := hp
      show alKeys acc' = alKeys data
      cases hg : alGet acc a.1 with
      | none => rw [hg] at hs; simp at hs
      | some cur =>
        rw [hg] at hs
        cases hs
        rw [alKeys_alSet_of_mem _ (mem_alKeys_of_alGet hg), hp'])
    res data d' h rfl

theorem aggregate_keys (data : Profile) (results : List Profile) (d' : Profile)
    (h : aggregate data results = .ok d') : alKeys d' = alKeys data := by
  unfold aggregate at h
  exact foldE_inv (P := fun acc => alKeys acc = alKeys data)
    (fun acc a acc' hs hp => by
      have hp' : alKeys acc = alKeys data := hp
      show alKeys acc' = alKeys data
      rw [merge_into_keys acc a acc' hs, hp'])
    results data d' h rfl

theorem foldl_alSet_nil_eq (ranks : List Rank) :
    ∀ (m : Profile), ranks.Nodup → (∀ r ∈ ranks, r ∉ alKeys m) →
      ranks.foldl (fun acc r => alSet acc r []) m =
        m ++ ranks.map (fun r => (r, [])) := by
  induction ranks with
  | nil => intro m _ _; simp
  | cons a t ih =>
    intro m hnd hmem
    rw [List.foldl_cons,
      alSet_of_not_mem _ (hmem a (List.mem_cons.mpr (Or.inl rfl)))]
    rw [ih (m ++ [(a, [])]) (List.Nodup.of_cons hnd) ?hnew]
    · simp
    case hnew =>
      intro r hr
      rw [alKeys_append]
      intro hcon
      rcases List.mem_append.mp hcon with hc | hc
      · exact hmem r (List.mem_cons.mpr (Or.inr hr)) hc
      · have : r = a := by simpa [alKeys] using hc
        exact (List.nodup_cons.mp hnd).1 (this ▸ hr)

theorem alKeys_data_init_of_nodup (ranks : List Rank) (h : ranks.Nodup) :
    alKeys (data_init ranks) = ranks := by
  unfold data_init
  rw [foldl_alSet_nil_eq ranks [] h (by simp [alKeys])]
  simp only [List.nil_append, alKeys, List.map_map]
  have : (Prod.fst ∘ fun r : Rank => (r, ([] : PyDict SKey (PyDict TUnit Nat)))) = id := by
    funext r
    rfl
  rw [this, List.map_id]

/-- C10: for every run that returns, the top-level keys of the returned
mapping are exactly the requested rank list: one entry per requested
rank is created before any file is processed (workflow.py:139), and the
merge loop (workflow.py:205-211) updates only inside existing rank
entries, never adding or removing a rank key — even when the input files
contain no queries. -/
theorem c10_keys_are_requested_ranks (cfg : RunCfg) (d : Profile)
    (hnd : cfg.ranks.Nodup) (h : classify cfg = .ok d) :
    alKeys d = cfg.ranks := by
  unfold classify at h
  cases hs : seqE ((fileList cfg.files).map (classify_file_mp cfg)) with
  | error e => rw [hs] at h; simp at h
  | ok rs =>
    rw [hs] at h
    rw [aggregate_keys _ _ _ h]
    exact alKeys_data_init_of_nodup cfg.ranks hnd

theorem c10_keys_are_requested_ranks_witness :
    alKeys [("genus", ([] : PyDict SKey (PyDict TUnit Nat))), ("phylum", [])] =
      cfgC10.ranks :=
  c10_keys_are_requested_ranks cfgC10 [("genus", []), ("phylum", [])]
    (by decide) rfl

end Woltka
